import Mathlib

/-
Shallow embedding of `evaluation_framework.py` (feature-selection evaluation
framework): the Kuncheva consistency index (pairwise and k-way), the
hyperparameter-selection loop, the solver-output parsing of the `run_sfan` /
`run_msfan_nocorr` / `run_msfan` adapters, the PPV/TPR scorer, and the
`Framework.compute_indices` cross-validation partitioner.

Python floats are modelled as exact rationals (`ℚ`); Python ints as `ℤ`/`ℕ`;
Python exceptions as explicit `Except` error values.
-/

/-- Errors that the Python code can raise (`ZeroDivisionError`, `ValueError`),
plus the error names that the specification's error taxonomy asks for
(`InsufficientDataError`, `InvalidGroundTruth`), so that statements can compare
the two. The code itself never constructs the latter two. -/
inductive EvalError where
  | zeroDivisionError
  | valueError
  | insufficientDataError
  | invalidGroundTruth
deriving DecidableEq

/-- Embedding of `consistency_index(sel1, sel2, num_features)`
(evaluation_framework.py lines 9-39).  `observed`, `expected`, `maxposbl` and
the guarded division mirror lines 31-38.  Python would raise a
`ZeroDivisionError` at `num_features == 0`; every theorem below assumes
`0 < num_features`, matching the spec's "positive num_features". -/
def consistency_index (sel1 sel2 : Finset ℕ) (num_features : ℕ) : ℚ :=
  let observed : ℚ := ((sel1 ∩ sel2).card : ℚ)
  let expected : ℚ := ((sel1.card : ℚ) * (sel2.card : ℚ)) / (num_features : ℚ)
  let maxposbl : ℚ := min (sel1.card : ℚ) (sel2.card : ℚ)
  if expected ≠ maxposbl then (observed - expected) / (maxposbl - expected) else 0

/-- The nested double loop of `consistency_index_k` (lines 67-76): for each
`sel1` at position `k1`, add `consistency_index(set(sel1), set(sel2))` for
every `sel2` occurring after `k1` in the list. -/
def pairSum (sel_list : List (List ℕ)) (num_features : ℕ) : ℚ :=
  match sel_list with
  | [] => 0
  | sel1 :: rest =>
      (rest.map (fun sel2 => consistency_index sel1.toFinset sel2.toFinset num_features)).sum
        + pairSum rest num_features

/-- The value `2. / (len(sel_list) * (len(sel_list) - 1)) * cidx` computed at
line 78, as a total rational function (meaningful only when the list has at
least two elements). -/
def cidx_k_val (sel_list : List (List ℕ)) (num_features : ℕ) : ℚ :=
  2 / ((sel_list.length : ℚ) * ((sel_list.length : ℚ) - 1)) * pairSum sel_list num_features

/-- Embedding of `consistency_index_k(sel_list, num_features)` (lines 42-80).
When `len(sel_list) * (len(sel_list) - 1) == 0` (i.e. fewer than two
selections), line 78 divides the float `2.` by zero and Python raises
`ZeroDivisionError`; otherwise the averaged index is returned.  The integer
product is formed over `ℤ` exactly as Python forms it
(`len(sel_list) - 1` is `-1` for the empty list). -/
def consistency_index_k (sel_list : List (List ℕ)) (num_features : ℕ) : Except EvalError ℚ :=
  if (sel_list.length : ℤ) * ((sel_list.length : ℤ) - 1) = 0 then
    .error .zeroDivisionError
  else
    .ok (cidx_k_val sel_list num_features)

/-- Inner loop of `get_optimal_parameters_from_dict` (lines 240-244): for each
task's `sel_list` compute `consistency_index_k` and adopt `params` whenever the
score strictly exceeds the running optimum.  A `ZeroDivisionError` raised by
`consistency_index_k` propagates. -/
def opt_task_loop (params : String) (tasks : List (List (List ℕ))) (num_features : ℕ)
    (opt_params : String) (opt_cindex : ℚ) : Except EvalError (String × ℚ) :=
  match tasks with
  | [] => .ok (opt_params, opt_cindex)
  | sel_list :: rest =>
      match consistency_index_k sel_list num_features with
      | .error e => .error e
      | .ok cidx =>
          if cidx > opt_cindex then opt_task_loop params rest num_features params cidx
          else opt_task_loop params rest num_features opt_params opt_cindex

/-- Outer loop of `get_optimal_parameters_from_dict` (line 239): iterate over
the `(params, per-task dict)` entries, threading the `(opt_params, opt_cindex)`
state through `opt_task_loop`. -/
def opt_params_loop (selected_dict : List (String × List (List (List ℕ))))
    (num_features : ℕ) (opt_params : String) (opt_cindex : ℚ) : Except EvalError String :=
  match selected_dict with
  | [] => .ok opt_params
  | (params, selected_dict_p) :: rest =>
      match opt_task_loop params selected_dict_p num_features opt_params opt_cindex with
      | .error e => .error e
      | .ok pc => opt_params_loop rest num_features pc.1 pc.2

/-- Embedding of `get_optimal_parameters_from_dict(selected_dict, num_features)`
(lines 219-245).  The dictionary is modelled as an association list of
`(params, list of per-task sel_lists)`; the unused task indices are dropped.
`opt_params` starts as the empty string and `opt_cindex` as `0` (lines
237-238). -/
def get_optimal_parameters_from_dict (selected_dict : List (String × List (List (List ℕ))))
    (num_features : ℕ) : Except EvalError String :=
  opt_params_loop selected_dict num_features "" 0

/-- Python's `s.split("\n")` on the character list of `s`: `"".split("\n")`
is `[""]`, and every `"\n"` separates (possibly empty) pieces. -/
def py_split_lines : List Char → List (List Char)
  | [] => [[]]
  | c :: rest =>
      if c = '\n' then [] :: py_split_lines rest
      else
        match py_split_lines rest with
        | [] => [[c]]
        | l :: ls => (c :: l) :: ls

/-- One splitting pass on whitespace characters, keeping empty pieces. -/
def py_split_ws_aux : List Char → List (List Char)
  | [] => [[]]
  | c :: rest =>
      if c = ' ' ∨ c = '\t' ∨ c = '\r' then [] :: py_split_ws_aux rest
      else
        match py_split_ws_aux rest with
        | [] => [[c]]
        | l :: ls => (c :: l) :: ls

/-- Python's no-argument `line.split()`: split on whitespace runs and drop the
empty pieces (so `"".split()` is `[]`). -/
def py_split_ws (line : List Char) : List (List Char) :=
  (py_split_ws_aux line).filter (fun tok => tok ≠ [])

/-- Python's `int(x)` on a token: the value of a nonempty all-digit token, and
a `ValueError` (modelled as `none`) otherwise.  The solver protocol only ever
produces nonnegative decimal indices, so signs are not modelled. -/
def py_int_of_token (tok : List Char) : Option ℕ :=
  if tok = [] then none
  else if tok.all Char.isDigit then
    some (tok.foldl (fun n c => 10 * n + (c.toNat - 48)) 0)
  else none

/-- The per-line comprehension `[(int(x)-1) for x in line.split()]` of lines
124/165/210: 1-based solver indices become 0-based. -/
def sel_line_of_output (line : List Char) : Option (List ℤ) :=
  (py_split_ws line).mapM (fun x => (py_int_of_token x).map (fun (v : ℕ) => (v : ℤ) - 1))

/-- Result of one solver-adapter invocation: the parsed selection lists, the
`import pdb; pdb.set_trace()` interactive halt of lines 126-128/167-169/212-214
(reached when `sel_list` is the empty list), or a `ValueError` from `int(x)`
on a malformed token. -/
inductive RunOutcome where
  | ok (sel_list : List (List ℤ))
  | pdbHalt
  | valueError
deriving DecidableEq

/-- Common core of `run_sfan` / `run_msfan_nocorr` / `run_msfan`: take the
captured standard output `p.communicate()[0]` of the external solver process
(the subprocess invocation itself is outside this embedding), split it on
newlines, keep `[header_count : header_count + num_tasks]`, parse each kept
line, and fall into `pdb.set_trace()` when the resulting `sel_list` is empty
(`if not sel_list`). -/
def solver_stdout_sel_list (header_count num_tasks : ℕ) (solver_stdout : String) : RunOutcome :=
  let p_out := ((py_split_lines solver_stdout.data).drop header_count).take num_tasks
  match p_out.mapM sel_line_of_output with
  | none => .valueError
  | some sel_list => if sel_list = [] then .pdbHalt else .ok sel_list

/-- Embedding of the output handling of `run_sfan` (lines 119-130): two header
lines are skipped (`[2:2+num_tasks]`). -/
def run_sfan (num_tasks : ℕ) (solver_stdout : String) : RunOutcome :=
  solver_stdout_sel_list 2 num_tasks solver_stdout

/-- Embedding of the output handling of `run_msfan_nocorr` (lines 160-171):
three header lines are skipped (`[3:3+num_tasks]`). -/
def run_msfan_nocorr (num_tasks : ℕ) (solver_stdout : String) : RunOutcome :=
  solver_stdout_sel_list 3 num_tasks solver_stdout

/-- Embedding of the output handling of `run_msfan` (lines 205-216): three
header lines are skipped (`[3:3+num_tasks]`). -/
def run_msfan (num_tasks : ℕ) (solver_stdout : String) : RunOutcome :=
  solver_stdout_sel_list 3 num_tasks solver_stdout

/-- A PPV value: a rational, or the NaN signal for an empty selection. -/
inductive PPVValue where
  | nan
  | val (q : ℚ)
deriving DecidableEq

/-- Modelled from the spec: the body of `compute_ppv_sensitivity` (lines
286-305) is an unimplemented TODO stub (it returns names that are never
assigned), so the per-task computation is taken from the specification:
PPV `= |selected ∩ causal| / |selected|` with a NaN signal when `selected`
is empty, TPR `= |selected ∩ causal| / |causal|`, failing with
`InvalidGroundTruth` when `causal` is empty. -/
def ppv_tpr_task (causal selected : Finset ℕ) : Except EvalError (PPVValue × ℚ) :=
  if causal = ∅ then .error .invalidGroundTruth
  else
    .ok
      (if selected = ∅ then .nan
        else .val (((selected ∩ causal).card : ℚ) / (selected.card : ℚ)),
        ((selected ∩ causal).card : ℚ) / (causal.card : ℚ))

/-- Modelled from the spec: per-task PPV and TPR lists for
`compute_ppv_sensitivity(causal_fname, selected_list)`, with the causal file
already read into one feature set per task. -/
def compute_ppv_sensitivity (causal_list selected_list : List (Finset ℕ)) :
    Except EvalError (List PPVValue × List ℚ) :=
  ((causal_list.zip selected_list).mapM (fun cs => ppv_tpr_task cs.1 cs.2)).map
    (fun pairs => (pairs.map Prod.fst, pairs.map Prod.snd))

/-- Fold sizes of `sklearn.cross_validation.KFold(n, n_folds)`: the first
`n % n_folds` folds get `n / n_folds + 1` samples, the rest `n / n_folds`. -/
def kfold_fold_sizes (n n_folds : ℕ) : List ℕ :=
  (List.range n_folds).map (fun i => n / n_folds + if i < n % n_folds then 1 else 0)

/-- `sklearn.cross_validation.KFold(n, n_folds)` (no shuffling): the i-th
`(train_index, test_index)` pair, with test a contiguous block and train the
remaining indices in order. -/
def kfold (n n_folds : ℕ) : List (List ℕ × List ℕ) :=
  (List.range n_folds).map (fun i =>
    let sizes := kfold_fold_sizes n n_folds
    let start := (sizes.take i).sum
    let stop := start + sizes.getD i 0
    ((List.range n).filter (fun x => decide (x < start ∨ stop ≤ x)),
      (List.range n).filter (fun x => decide (start ≤ x ∧ x < stop))))

/-- One entry of `Framework.xp_indices`: train, test and subsample index
lists for one cross-validation fold. -/
structure FoldIndices where
  trIndices : List ℕ
  teIndices : List ℕ
  ssIndices : List (List ℕ)
deriving DecidableEq

/-- Embedding of `Framework.compute_indices(seed)` (lines 342-372) for a
`Framework(num_samples, num_folds, num_subsamples)`.  The `seed` argument is
accepted and never read, exactly as in the source.  For each fold the code
appends, as `ssIndices`, the train half of every fold of a fresh
`KFold(self.num_samples, n_folds=self.num_folds)` — a `KFold` over the full
sample range, not over the fold's training indices, and `num_folds` (not
`num_subsamples`) many of them. -/
def compute_indices (num_samples num_folds num_subsamples : ℕ) (seed : Option ℤ) :
    List FoldIndices :=
  (kfold num_samples num_folds).map (fun tt =>
    { trIndices := tt.1
      teIndices := tt.2
      ssIndices := (kfold num_samples num_folds).map Prod.fst })

/-- Concrete 20-of-40 feature selections used to exercise the
hyperparameter-selection loop: the base selection `{0, …, 19}`. -/
def base20 : List ℕ := List.range 20

/-- Overlaps `base20` in 18 features: pairwise consistency `0.8` at 40. -/
def overlapA0 : List ℕ := List.range 18 ++ [20, 21]

/-- Overlaps `base20` in 12 features: pairwise consistency `0.2` at 40. -/
def overlapA1 : List ℕ := List.range 12 ++ [20, 21, 22, 23, 24, 25, 26, 27]

/-- Overlaps `base20` in 13 features: pairwise consistency `0.3` at 40. -/
def overlapB0 : List ℕ := List.range 13 ++ [20, 21, 22, 23, 24, 25, 26]

/-- Overlaps `base20` in 19 features: pairwise consistency `0.9` at 40. -/
def overlapB1 : List ℕ := List.range 19 ++ [20]

/-- Two hyperparameter settings with per-task k-way stability scores
`A ↦ {0.8, 0.2}` and `B ↦ {0.3, 0.9}` over `num_features = 40`. -/
def dictAB : List (String × List (List (List ℕ))) :=
  [("A", [[base20, overlapA0], [base20, overlapA1]]),
    ("B", [[base20, overlapB0], [base20, overlapB1]])]

/-- A setting whose only task score is `-1`: two disjoint singleton
selections over 2 features. -/
def dictNeg : List (String × List (List (List ℕ))) := [("A", [[[0], [1]]])]

/-- C1: for all finite feature sets `sel1`, `sel2` and positive `num_features`,
`consistency_index` returns `(observed - expected) / (maxposbl - expected)`
whenever `maxposbl ≠ expected` (and that denominator is nonzero, so no division
by zero occurs), returns exactly `0` whenever `maxposbl = expected`, and in
particular returns `0` on two empty sets and on two full sets of all
`num_features` features. -/
theorem consistency_index_pairwise_formula (sel1 sel2 : Finset ℕ) (num_features : ℕ)
    (hn : 0 < num_features) :
    ((min (sel1.card : ℚ) (sel2.card : ℚ) ≠ ((sel1.card : ℚ) * (sel2.card : ℚ)) / (num_features : ℚ) →
        consistency_index sel1 sel2 num_features =
          (((sel1 ∩ sel2).card : ℚ) - ((sel1.card : ℚ) * (sel2.card : ℚ)) / (num_features : ℚ)) /
            (min (sel1.card : ℚ) (sel2.card : ℚ) - ((sel1.card : ℚ) * (sel2.card : ℚ)) / (num_features : ℚ)) ∧
        min (sel1.card : ℚ) (sel2.card : ℚ) - ((sel1.card : ℚ) * (sel2.card : ℚ)) / (num_features : ℚ) ≠ 0) ∧
      (min (sel1.card : ℚ) (sel2.card : ℚ) = ((sel1.card : ℚ) * (sel2.card : ℚ)) / (num_features : ℚ) →
        consistency_index sel1 sel2 num_features = 0)) ∧
    consistency_index ∅ ∅ num_features = 0 ∧
    consistency_index (Finset.range num_features) (Finset.range num_features) num_features = 0 := by
  have hn0 : (num_features : ℚ) ≠ 0 := Nat.cast_ne_zero.mpr hn.ne'
  refine ⟨⟨?_, ?_⟩, ?_, ?_⟩
  · intro hne
    refine ⟨?_, sub_ne_zero.mpr hne⟩
    simp only [consistency_index]
    rw [if_pos (fun h => hne h.symm)]
  · intro heq
    simp only [consistency_index]
    rw [if_neg (fun h => h heq.symm)]
  · simp [consistency_index]
  · have hexp : ((num_features : ℚ) * (num_features : ℚ)) / (num_features : ℚ)
        = (num_features : ℚ) := by field_simp
    simp only [consistency_index, Finset.card_range, min_self, hexp]
    rw [if_neg (fun h => h rfl)]

theorem consistency_index_pairwise_formula_witness :
    0 < 10 ∧ consistency_index {1, 2} {2, 3} 10 = 3 / 8 := by
  refine ⟨by norm_num, ?_⟩
  have hc1 : (({1, 2} : Finset ℕ)).card = 2 := by decide
  have hc2 : (({2, 3} : Finset ℕ)).card = 2 := by decide
  have hco : ((({1, 2} : Finset ℕ) ∩ ({2, 3} : Finset ℕ)).card) = 1 := by decide
  have h := (consistency_index_pairwise_formula {1, 2} {2, 3} 10 (by norm_num)).1.1
  rw [hc1, hc2, hco] at h
  have h2 := (h (by norm_num)).1
  rw [h2]
  norm_num

/-- `(l.map f).sum` written as a sum over positions, used to relate the inner
loop of `consistency_index_k` to an indexed pair sum. -/
theorem list_map_sum_eq_range {α : Type} (l : List α) (f : α → ℚ) (d : α) :
    (l.map f).sum = ∑ i ∈ Finset.range l.length, f (l.getD i d) := by
  induction l with
  | nil => simp
  | cons a t ih =>
    rw [List.map_cons, List.sum_cons, ih, List.length_cons, Finset.sum_range_succ']
    simp [add_comm]

/-- The nested loop of `consistency_index_k` sums the pairwise consistency
index over exactly the unordered index pairs `i < j`. -/
theorem pairSum_eq_pair_sum (sel_list : List (List ℕ)) (num_features : ℕ) :
    pairSum sel_list num_features =
      ∑ i ∈ Finset.range sel_list.length, ∑ j ∈ Finset.range sel_list.length,
        if i < j then
          consistency_index (sel_list.getD i []).toFinset (sel_list.getD j []).toFinset num_features
        else 0 := by
  induction sel_list with
  | nil => simp [pairSum]
  | cons s t ih =>
    rw [pairSum, ih,
      list_map_sum_eq_range t (fun u => consistency_index s.toFinset u.toFinset num_features) []]
    simp only [List.length_cons, Finset.sum_range_succ', List.getD_cons_succ, List.getD_cons_zero,
      Nat.succ_lt_succ_iff, Nat.zero_lt_succ, Nat.not_lt_zero, if_true, if_false, add_zero,
      Nat.lt_irrefl]
    ring

/-- C6: for every list of `k ≥ 2` selections and positive `num_features`, the
k-way consistency index is `(2 / (k·(k−1)))` times the sum of the pairwise
consistency index over all unordered pairs `i < j`; in particular for three
selections `[A, B, C]` it is the arithmetic mean
`(pairwise(A,B) + pairwise(A,C) + pairwise(B,C)) / 3`. -/
theorem consistency_index_k_mean_of_pairwise :
    (∀ (sel_list : List (List ℕ)) (num_features : ℕ), 0 < num_features →
      2 ≤ sel_list.length →
      consistency_index_k sel_list num_features =
        .ok (2 / ((sel_list.length : ℚ) * ((sel_list.length : ℚ) - 1)) *
          ∑ i ∈ Finset.range sel_list.length, ∑ j ∈ Finset.range sel_list.length,
            if i < j then
              consistency_index (sel_list.getD i []).toFinset (sel_list.getD j []).toFinset
                num_features
            else 0)) ∧
    (∀ (A B C : List ℕ) (num_features : ℕ), 0 < num_features →
      consistency_index_k [A, B, C] num_features =
        .ok ((consistency_index A.toFinset B.toFinset num_features
          + consistency_index A.toFinset C.toFinset num_features
          + consistency_index B.toFinset C.toFinset num_features) / 3)) := by
  constructor
  · intro sel_list num_features _ hk
    rw [consistency_index_k, if_neg, cidx_k_val, pairSum_eq_pair_sum]
    have h0 : (sel_list.length : ℤ) ≠ 0 := by omega
    have h1 : (sel_list.length : ℤ) - 1 ≠ 0 := by omega
    exact fun h => (mul_ne_zero h0 h1) h
  · intro A B C num_features _
    rw [consistency_index_k, if_neg (by norm_num), cidx_k_val]
    simp only [pairSum, List.map_cons, List.map_nil, List.sum_cons, List.sum_nil, List.length_cons,
      List.length_nil]
    norm_num
    ring

theorem consistency_index_k_mean_of_pairwise_witness :
    (0 < 2 ∧ 2 ≤ ([[0], [1]] : List (List ℕ)).length ∧
      consistency_index_k [[0], [1]] 2 =
        .ok (2 / ((([[0], [1]] : List (List ℕ)).length : ℚ) *
            ((([[0], [1]] : List (List ℕ)).length : ℚ) - 1)) *
          ∑ i ∈ Finset.range ([[0], [1]] : List (List ℕ)).length,
            ∑ j ∈ Finset.range ([[0], [1]] : List (List ℕ)).length,
            if i < j then
              consistency_index (([[0], [1]] : List (List ℕ)).getD i []).toFinset
                (([[0], [1]] : List (List ℕ)).getD j []).toFinset 2
            else 0)) ∧
    (0 < 2 ∧ consistency_index_k [[0], [1], [0, 1]] 2 =
      .ok ((consistency_index ([0] : List ℕ).toFinset ([1] : List ℕ).toFinset 2
        + consistency_index ([0] : List ℕ).toFinset ([0, 1] : List ℕ).toFinset 2
        + consistency_index ([1] : List ℕ).toFinset ([0, 1] : List ℕ).toFinset 2) / 3)) :=
  ⟨⟨by norm_num, by norm_num,
      consistency_index_k_mean_of_pairwise.1 [[0], [1]] 2 (by norm_num) (by norm_num)⟩,
    ⟨by norm_num, consistency_index_k_mean_of_pairwise.2 [0] [1] [0, 1] 2 (by norm_num)⟩⟩

/-- C7 counterexample: on the empty list of selections the k-way computation
does fail, but with the `ZeroDivisionError` of line 78, not with an explicit
`InsufficientDataError` as the claim states. -/
theorem consistency_index_k_error_name_counterexample :
    consistency_index_k [] 10 = .error .zeroDivisionError ∧
    EvalError.zeroDivisionError ≠ EvalError.insufficientDataError :=
  ⟨rfl, by decide⟩

/-- C7 (amended): for every list of fewer than 2 selection sets the k-way
consistency computation fails, with the `ZeroDivisionError` arising from the
`2. / (len(sel_list) * (len(sel_list) - 1))` normalization — a catchable
exception, but not an explicit `InsufficientDataError`. -/
theorem consistency_index_k_fails_below_two (sel_list : List (List ℕ)) (num_features : ℕ)
    (h : sel_list.length < 2) :
    consistency_index_k sel_list num_features = .error .zeroDivisionError := by
  rw [consistency_index_k, if_pos]
  interval_cases h : sel_list.length <;> simp_all

theorem consistency_index_k_fails_below_two_witness :
    ([] : List (List ℕ)).length < 2 ∧
      consistency_index_k [] 10 = .error .zeroDivisionError :=
  ⟨by norm_num, consistency_index_k_fails_below_two [] 10 (by norm_num)⟩

/-- C10: `compute_indices` is entirely independent of its `seed` argument —
for any two seed values (including `none`, Python's `None`) and the same
`(num_samples, num_folds, num_subsamples)`, the produced fold dictionaries are
identical, because the code never reads the seed. -/
theorem compute_indices_seed_independent (num_samples num_folds num_subsamples : ℕ)
    (s1 s2 : Option ℤ) :
    compute_indices num_samples num_folds num_subsamples s1 =
      compute_indices num_samples num_folds num_subsamples s2 := rfl

/-- C2 (code bug, evaluated at `num_samples = 4`, `num_folds = 2`,
`num_subsamples = 3`): the subsample index sets are the train halves of a
`KFold` over the **full** sample range `{0,1,2,3}` — fold 0 (test `[0,1]`,
train `[2,3]`) receives the subsample sets `[[2,3],[0,1]]`, so its second
subsample set `[0,1]` is not even disjoint from its test set, and it receives
`num_folds = 2` of them instead of `num_subsamples = 3`. -/
theorem compute_indices_subsample_bug :
    compute_indices 4 2 3 none =
      [⟨[2, 3], [0, 1], [[2, 3], [0, 1]]⟩, ⟨[0, 1], [2, 3], [[2, 3], [0, 1]]⟩] ∧
    ((compute_indices 4 2 3 none).getD 0 ⟨[], [], []⟩).ssIndices.length = 2 ∧
    ¬ ((compute_indices 4 2 3 none).getD 0 ⟨[], [], []⟩).ssIndices.length = 3 ∧
    0 ∈ ((compute_indices 4 2 3 none).getD 0 ⟨[], [], []⟩).teIndices ∧
    0 ∈ ((compute_indices 4 2 3 none).getD 0 ⟨[], [], []⟩).ssIndices.getD 1 [] := by
  decide

/-- C4 (code bug, evaluated on concrete solver outputs): when the solver
produces no data lines at all, the adapters drop into `pdb.set_trace()` — an
interactive halt, not a catchable `EmptySelectionError`; and when only one
task's line is empty (fewer 1-based indices than tasks), the empty per-task
selection is silently returned as a success. -/
theorem run_sfan_pdb_halt_bug :
    run_sfan 2 "h1\nh2" = .pdbHalt ∧
    run_msfan_nocorr 2 "h1\nh2\nh3" = .pdbHalt ∧
    run_msfan 2 "h1\nh2\nh3" = .pdbHalt ∧
    run_sfan 2 "h1\nh2\n\n2 4" = .ok [[], [1, 3]] := by
  decide

/-- Behaviour of the inner selector loop when every task's selection list has
at least two entries: it succeeds, the running optimum only grows, a strict
increase means `params` was adopted, no increase means the state is unchanged,
every task score is bounded by the final optimum, and the final optimum is
either the initial one or one of the task scores. -/
theorem opt_task_loop_spec (params : String) (tasks : List (List (List ℕ)))
    (num_features : ℕ) (p : String) (c : ℚ)
    (hall : ∀ sl ∈ tasks, 2 ≤ sl.length) :
    ∃ p' c', opt_task_loop params tasks num_features p c = .ok (p', c') ∧
      c ≤ c' ∧ (p' = p ∨ p' = params) ∧
      (∀ sl ∈ tasks, cidx_k_val sl num_features ≤ c') ∧
      (c' = c ∨ ∃ sl ∈ tasks, c' = cidx_k_val sl num_features) ∧
      (c < c' → p' = params) ∧ (c' = c → p' = p) := by
  induction tasks generalizing p c with
  | nil =>
    exact ⟨p, c, rfl, le_refl c, Or.inl rfl, by simp, Or.inl rfl,
      fun h => absurd h (lt_irrefl c), fun _ => rfl⟩
  | cons sl rest ih =>
    have hsl : 2 ≤ sl.length := hall sl (List.mem_cons_self sl rest)
    have hrest : ∀ s ∈ rest, 2 ≤ s.length := fun s hs => hall s (List.mem_cons_of_mem sl hs)
    have hk : consistency_index_k sl num_features = .ok (cidx_k_val sl num_features) := by
      rw [consistency_index_k, if_neg]
      have h0 : (sl.length : ℤ) ≠ 0 := by omega
      have h1 : (sl.length : ℤ) - 1 ≠ 0 := by omega
      exact fun h => (mul_ne_zero h0 h1) h
    by_cases hvc : cidx_k_val sl num_features > c
    · obtain ⟨p', c', heq, hle, hor, hub, hval, himp, hstay⟩ :=
        ih params (cidx_k_val sl num_features) hrest
      refine ⟨p', c', ?_, le_of_lt (lt_of_lt_of_le hvc hle), Or.inr (hor.elim id id), ?_, ?_, ?_, ?_⟩
      · simp only [opt_task_loop, hk]
        rw [if_pos hvc]
        exact heq
      · intro s hs
        rcases List.mem_cons.mp hs with h | h
        · exact h ▸ hle
        · exact hub s h
      · rcases hval with h | ⟨s, hs, h⟩
        · exact Or.inr ⟨sl, List.mem_cons_self sl rest, h⟩
        · exact Or.inr ⟨s, List.mem_cons_of_mem sl hs, h⟩
      · exact fun _ => hor.elim id id
      · intro h
        rw [h] at hle
        exact absurd (lt_of_lt_of_le hvc hle) (lt_irrefl c)
    · obtain ⟨p', c', heq, hle, hor, hub, hval, himp, hstay⟩ := ih p c hrest
      refine ⟨p', c', ?_, hle, hor, ?_, ?_, himp, hstay⟩
      · simp only [opt_task_loop, hk]
        rw [if_neg hvc]
        exact heq
      · intro s hs
        rcases List.mem_cons.mp hs with h | h
        · exact h ▸ le_trans (not_lt.mp hvc) hle
        · exact hub s h
      · rcases hval with h | ⟨s, hs, h⟩
        · exact Or.inl h
        · exact Or.inr ⟨s, List.mem_cons_of_mem sl hs, h⟩

/-- If every task score of every entry is at most the current optimum, the
outer loop never adopts anything and returns the incoming `opt_params`. -/
theorem opt_params_loop_no_adoption (selected_dict : List (String × List (List (List ℕ))))
    (num_features : ℕ) (p : String) (c : ℚ)
    (hall : ∀ e ∈ selected_dict, ∀ sl ∈ e.2, 2 ≤ sl.length)
    (hle : ∀ e ∈ selected_dict, ∀ sl ∈ e.2, cidx_k_val sl num_features ≤ c) :
    opt_params_loop selected_dict num_features p c = .ok p := by
  induction selected_dict generalizing p c with
  | nil => rfl
  | cons e rest ih =>
    obtain ⟨params, tasks⟩ := e
    obtain ⟨p', c', heq, hcle, hor, hub, hval, himp, hstay⟩ :=
      opt_task_loop_spec params tasks num_features p c
        (hall (params, tasks) (List.mem_cons_self _ _))
    have hc' : c' = c := by
      rcases hval with h | ⟨s, hs, h⟩
      · exact h
      · exact le_antisymm
          (h ▸ hle (params, tasks) (List.mem_cons_self _ _) s hs) hcle
    have hp' : p' = p := hstay hc'
    simp only [opt_params_loop, heq]
    rw [hp', hc']
    exact ih p c (fun e he => hall e (List.mem_cons_of_mem _ he))
      (fun e he => hle e (List.mem_cons_of_mem _ he))

/-- Once the running optimum has reached a bound `M` that strictly dominates
every task score of every entry whose setting differs from `s`, and the
current `opt_params` is `s`, the outer loop keeps returning `s`. -/
theorem opt_params_loop_keeps_leader (selected_dict : List (String × List (List (List ℕ))))
    (num_features : ℕ) (s : String) (M c : ℚ)
    (hall : ∀ e ∈ selected_dict, ∀ sl ∈ e.2, 2 ≤ sl.length)
    (hothers : ∀ e ∈ selected_dict, e.1 ≠ s → ∀ sl ∈ e.2, cidx_k_val sl num_features < M)
    (hM : M ≤ c) :
    opt_params_loop selected_dict num_features s c = .ok s := by
  induction selected_dict generalizing c with
  | nil => rfl
  | cons e rest ih =>
    obtain ⟨params, tasks⟩ := e
    obtain ⟨p', c', heq, hcle, hor, hub, hval, himp, hstay⟩ :=
      opt_task_loop_spec params tasks num_features s c
        (hall (params, tasks) (List.mem_cons_self _ _))
    have hrest_all : ∀ e ∈ rest, ∀ sl ∈ e.2, 2 ≤ sl.length :=
      fun e he => hall e (List.mem_cons_of_mem _ he)
    have hrest_out : ∀ e ∈ rest, e.1 ≠ s → ∀ sl ∈ e.2, cidx_k_val sl num_features < M :=
      fun e he => hothers e (List.mem_cons_of_mem _ he)
    by_cases hps : params = s
    · have hp' : p' = s := hor.elim id (fun h => h.trans hps)
      simp only [opt_params_loop, heq]
      rw [hp']
      exact ih c' hrest_all hrest_out (le_trans hM hcle)
    · have hsmall : ∀ sl ∈ tasks, cidx_k_val sl num_features < M :=
        hothers (params, tasks) (List.mem_cons_self _ _) hps
      have hc' : c' = c := by
        rcases hval with h | ⟨sl, hsli, h⟩
        · exact h
        · exact le_antisymm (le_trans (le_of_lt (h ▸ hsmall sl hsli)) hM) hcle
      simp only [opt_params_loop, heq]
      rw [hstay hc', hc']
      exact ih c hrest_all hrest_out hM

/-- If entry `(s, ts)` holds a task score `M` that bounds all of its own task
scores, strictly dominates every task score of every differently-named entry,
and strictly exceeds the incoming optimum, then the outer loop returns `s` —
regardless of iteration order and of the incoming `opt_params`. -/
theorem opt_params_loop_selects_highest (selected_dict : List (String × List (List (List ℕ))))
    (num_features : ℕ) (s : String) (ts : List (List (List ℕ))) (M : ℚ) (p : String) (c : ℚ)
    (hall : ∀ e ∈ selected_dict, ∀ sl ∈ e.2, 2 ≤ sl.length)
    (hmem : (s, ts) ∈ selected_dict)
    (hMmem : ∃ sl ∈ ts, cidx_k_val sl num_features = M)
    (hMub : ∀ sl ∈ ts, cidx_k_val sl num_features ≤ M)
    (hothers : ∀ e ∈ selected_dict, e.1 ≠ s → ∀ sl ∈ e.2, cidx_k_val sl num_features < M)
    (hc : c < M) :
    opt_params_loop selected_dict num_features p c = .ok s := by
  induction selected_dict generalizing p c with
  | nil => exact absurd hmem (List.not_mem_nil _)
  | cons e rest ih =>
    obtain ⟨params, tasks⟩ := e
    obtain ⟨p', c', heq, hcle, hor, hub, hval, himp, hstay⟩ :=
      opt_task_loop_spec params tasks num_features p c
        (hall (params, tasks) (List.mem_cons_self _ _))
    have hrest_all : ∀ e ∈ rest, ∀ sl ∈ e.2, 2 ≤ sl.length :=
      fun e he => hall e (List.mem_cons_of_mem _ he)
    have hrest_out : ∀ e ∈ rest, e.1 ≠ s → ∀ sl ∈ e.2, cidx_k_val sl num_features < M :=
      fun e he => hothers e (List.mem_cons_of_mem _ he)
    rcases List.mem_cons.mp hmem with hhead | htail
    · obtain ⟨hps, hts⟩ := Prod.mk.inj hhead
      obtain ⟨slM, hslM, hslMv⟩ := hMmem
      have hMle : M ≤ c' := hslMv ▸ hub slM (hts ▸ hslM)
      have hp' : p' = params := himp (lt_of_lt_of_le hc hMle)
      simp only [opt_params_loop, heq]
      rw [hp', ← hps]
      exact opt_params_loop_keeps_leader rest num_features s M c' hrest_all hrest_out hMle
    · by_cases hcM : c' < M
      · simp only [opt_params_loop, heq]
        exact ih p' c' hrest_all htail hrest_out hcM
      · push_neg at hcM
        by_cases hps : params = s
        · have hp' : p' = params := himp (lt_of_lt_of_le hc hcM)
          simp only [opt_params_loop, heq]
          rw [hp', hps]
          exact opt_params_loop_keeps_leader rest num_features s M c' hrest_all hrest_out hcM
        · have hsmall : c' < M := by
            rcases hval with h | ⟨sl, hsl, h⟩
            · exact h ▸ hc
            · exact h ▸ hothers (params, tasks) (List.mem_cons_self _ _) hps sl hsl
          exact absurd hsmall (not_lt.mpr hcM)

/-- C3: `get_optimal_parameters_from_dict` starts its running optimum at `0`
and adopts a setting only on a strict improvement, so it returns the setting
holding the single highest per-task k-way stability score of the whole
iteration: whenever setting `s` has a task score `M > 0` that strictly
dominates every task score of every other setting, the result is `s`,
independent of dictionary order. -/
theorem get_optimal_parameters_selects_highest
    (selected_dict : List (String × List (List (List ℕ)))) (num_features : ℕ)
    (s : String) (ts : List (List (List ℕ))) (M : ℚ)
    (hall : ∀ e ∈ selected_dict, ∀ sl ∈ e.2, 2 ≤ sl.length)
    (hmem : (s, ts) ∈ selected_dict)
    (hMmem : ∃ sl ∈ ts, cidx_k_val sl num_features = M)
    (hMub : ∀ sl ∈ ts, cidx_k_val sl num_features ≤ M)
    (hothers : ∀ e ∈ selected_dict, e.1 ≠ s → ∀ sl ∈ e.2, cidx_k_val sl num_features < M)
    (hpos : 0 < M) :
    get_optimal_parameters_from_dict selected_dict num_features = .ok s :=
  opt_params_loop_selects_highest selected_dict num_features s ts M "" 0
    hall hmem hMmem hMub hothers hpos

/-- C9: when every computed per-task stability score is ≤ 0 (in particular for
an empty results dictionary), no setting is ever adopted and the selector
returns the empty string — the code's empty-result signal. -/
theorem get_optimal_parameters_no_valid_setting
    (selected_dict : List (String × List (List (List ℕ)))) (num_features : ℕ)
    (hall : ∀ e ∈ selected_dict, ∀ sl ∈ e.2, 2 ≤ sl.length)
    (hle : ∀ e ∈ selected_dict, ∀ sl ∈ e.2, cidx_k_val sl num_features ≤ 0) :
    get_optimal_parameters_from_dict selected_dict num_features = .ok "" :=
  opt_params_loop_no_adoption selected_dict num_features "" 0 hall hle

/-- Setting A, task 0: k-way stability `0.8` over 40 features. -/
theorem cidx_val_A0 : cidx_k_val [base20, overlapA0] 40 = 4 / 5 := by
  have h1 : (base20.toFinset ∩ overlapA0.toFinset).card = 18 := by decide
  have h2 : base20.toFinset.card = 20 := by decide
  have h3 : overlapA0.toFinset.card = 20 := by decide
  rw [cidx_k_val]
  simp only [pairSum, List.map_cons, List.map_nil, List.sum_cons, List.sum_nil,
    List.length_cons, List.length_nil]
  rw [consistency_index, h1, h2, h3]
  norm_num

/-- Setting A, task 1: k-way stability `0.2` over 40 features. -/
theorem cidx_val_A1 : cidx_k_val [base20, overlapA1] 40 = 1 / 5 := by
  have h1 : (base20.toFinset ∩ overlapA1.toFinset).card = 12 := by decide
  have h2 : base20.toFinset.card = 20 := by decide
  have h3 : overlapA1.toFinset.card = 20 := by decide
  rw [cidx_k_val]
  simp only [pairSum, List.map_cons, List.map_nil, List.sum_cons, List.sum_nil,
    List.length_cons, List.length_nil]
  rw [consistency_index, h1, h2, h3]
  norm_num

/-- Setting B, task 0: k-way stability `0.3` over 40 features. -/
theorem cidx_val_B0 : cidx_k_val [base20, overlapB0] 40 = 3 / 10 := by
  have h1 : (base20.toFinset ∩ overlapB0.toFinset).card = 13 := by decide
  have h2 : base20.toFinset.card = 20 := by decide
  have h3 : overlapB0.toFinset.card = 20 := by decide
  rw [cidx_k_val]
  simp only [pairSum, List.map_cons, List.map_nil, List.sum_cons, List.sum_nil,
    List.length_cons, List.length_nil]
  rw [consistency_index, h1, h2, h3]
  norm_num

/-- Setting B, task 1: k-way stability `0.9` over 40 features — the single
highest score of the whole grid. -/
theorem cidx_val_B1 : cidx_k_val [base20, overlapB1] 40 = 9 / 10 := by
  have h1 : (base20.toFinset ∩ overlapB1.toFinset).card = 19 := by decide
  have h2 : base20.toFinset.card = 20 := by decide
  have h3 : overlapB1.toFinset.card = 20 := by decide
  rw [cidx_k_val]
  simp only [pairSum, List.map_cons, List.map_nil, List.sum_cons, List.sum_nil,
    List.length_cons, List.length_nil]
  rw [consistency_index, h1, h2, h3]
  norm_num

theorem get_optimal_parameters_selects_highest_witness :
    (∀ e ∈ dictAB, ∀ sl ∈ e.2, 2 ≤ sl.length) ∧
    ("B", [[base20, overlapB0], [base20, overlapB1]]) ∈ dictAB ∧
    (∃ sl ∈ [[base20, overlapB0], [base20, overlapB1]], cidx_k_val sl 40 = 9 / 10) ∧
    (∀ sl ∈ [[base20, overlapB0], [base20, overlapB1]], cidx_k_val sl 40 ≤ 9 / 10) ∧
    (∀ e ∈ dictAB, e.1 ≠ "B" → ∀ sl ∈ e.2, cidx_k_val sl 40 < 9 / 10) ∧
    (0 : ℚ) < 9 / 10 ∧
    get_optimal_parameters_from_dict dictAB 40 = .ok "B" := by
  have hall : ∀ e ∈ dictAB, ∀ sl ∈ e.2, 2 ≤ sl.length := by decide
  have hmem : ("B", [[base20, overlapB0], [base20, overlapB1]]) ∈ dictAB := by
    simp [dictAB]
  have hMmem : ∃ sl ∈ [[base20, overlapB0], [base20, overlapB1]], cidx_k_val sl 40 = 9 / 10 :=
    ⟨[base20, overlapB1], by simp, cidx_val_B1⟩
  have hMub : ∀ sl ∈ [[base20, overlapB0], [base20, overlapB1]], cidx_k_val sl 40 ≤ 9 / 10 := by
    intro sl hsl
    simp only [List.mem_cons, List.not_mem_nil, or_false] at hsl
    rcases hsl with rfl | rfl
    · rw [cidx_val_B0]; norm_num
    · rw [cidx_val_B1]
  have hothers : ∀ e ∈ dictAB, e.1 ≠ "B" → ∀ sl ∈ e.2, cidx_k_val sl 40 < 9 / 10 := by
    intro e he hne sl hsl
    simp only [dictAB, List.mem_cons, List.not_mem_nil, or_false] at he
    rcases he with rfl | rfl
    · simp only [List.mem_cons, List.not_mem_nil, or_false] at hsl
      rcases hsl with rfl | rfl
      · rw [cidx_val_A0]; norm_num
      · rw [cidx_val_A1]; norm_num
    · exact absurd rfl hne
  exact ⟨hall, hmem, hMmem, hMub, hothers, by norm_num,
    get_optimal_parameters_selects_highest dictAB 40 "B"
      [[base20, overlapB0], [base20, overlapB1]] (9 / 10)
      hall hmem hMmem hMub hothers (by norm_num)⟩

/-- The single score of `dictNeg` evaluates to `-1`. -/
theorem cidx_val_neg : cidx_k_val [[0], [1]] 2 = -1 := by
  have h1 : (([0] : List ℕ).toFinset ∩ ([1] : List ℕ).toFinset).card = 0 := by decide
  have h2 : ([0] : List ℕ).toFinset.card = 1 := by decide
  have h3 : ([1] : List ℕ).toFinset.card = 1 := by decide
  rw [cidx_k_val]
  simp only [pairSum, List.map_cons, List.map_nil, List.sum_cons, List.sum_nil,
    List.length_cons, List.length_nil]
  rw [consistency_index, h1, h2, h3]
  norm_num

theorem get_optimal_parameters_no_valid_setting_witness :
    (∀ e ∈ dictNeg, ∀ sl ∈ e.2, 2 ≤ sl.length) ∧
    (∀ e ∈ dictNeg, ∀ sl ∈ e.2, cidx_k_val sl 2 ≤ 0) ∧
    get_optimal_parameters_from_dict dictNeg 2 = .ok "" := by
  have hall : ∀ e ∈ dictNeg, ∀ sl ∈ e.2, 2 ≤ sl.length := by decide
  have hle : ∀ e ∈ dictNeg, ∀ sl ∈ e.2, cidx_k_val sl 2 ≤ 0 := by
    intro e he sl hsl
    simp only [dictNeg, List.mem_cons, List.not_mem_nil, or_false] at he
    subst he
    simp only [List.mem_cons, List.not_mem_nil, or_false] at hsl
    subst hsl
    rw [cidx_val_neg]
    norm_num
  exact ⟨hall, hle, get_optimal_parameters_no_valid_setting dictNeg 2 hall hle⟩

/-- `mapM` over `Option` succeeds with the pointwise values when every element
succeeds. -/
theorem mapM_option_eq_some {α β : Type} (f : α → Option β) (d : β) (l : List α)
    (h : ∀ a ∈ l, (f a).isSome) :
    l.mapM f = some (l.map (fun a => (f a).getD d)) := by
  induction l with
  | nil => rfl
  | cons a t ih =>
    obtain ⟨b, hb⟩ := Option.isSome_iff_exists.mp (h a (List.mem_cons_self a t))
    rw [List.mapM_cons, hb, ih (fun x hx => h x (List.mem_cons_of_mem a hx))]
    simp [hb]

/-- When every token of a line parses, the line comprehension returns the list
of parsed 1-based values, each decremented by one. -/
theorem sel_line_of_output_eq (line : List Char)
    (h : ∀ tok ∈ py_split_ws line, (py_int_of_token tok).isSome) :
    sel_line_of_output line =
      some ((py_split_ws line).map (fun tok => (((py_int_of_token tok).getD 0 : ℕ) : ℤ) - 1)) := by
  rw [sel_line_of_output,
    mapM_option_eq_some (fun x => (py_int_of_token x).map (fun (v : ℕ) => (v : ℤ) - 1)) 0 _
      (fun tok htok => by
        obtain ⟨v, hv⟩ := Option.isSome_iff_exists.mp (h tok htok)
        simp [hv])]
  congr 1
  apply List.map_congr_left
  intro tok htok
  obtain ⟨v, hv⟩ := Option.isSome_iff_exists.mp (h tok htok)
  simp [hv]

/-- Core parsing lemma shared by the three adapters: with `header_count`
header lines present, at least `num_tasks` data lines, and well-formed tokens,
the adapter returns exactly the first `num_tasks` data lines, each parsed as
whitespace-separated 1-based indices with 1 subtracted. -/
theorem solver_stdout_sel_list_ok (header_count num_tasks : ℕ) (solver_stdout : String)
    (hdr data : List (List Char))
    (hnt : 0 < num_tasks)
    (hsplit : py_split_lines solver_stdout.data = hdr ++ data)
    (hhdr : hdr.length = header_count)
    (hlen : num_tasks ≤ data.length)
    (htok : ∀ line ∈ data.take num_tasks, ∀ tok ∈ py_split_ws line,
      (py_int_of_token tok).isSome) :
    solver_stdout_sel_list header_count num_tasks solver_stdout =
      .ok ((data.take num_tasks).map (fun line =>
        (py_split_ws line).map (fun tok => (((py_int_of_token tok).getD 0 : ℕ) : ℤ) - 1))) := by
  have hpout : ((py_split_lines solver_stdout.data).drop header_count).take num_tasks
      = data.take num_tasks := by
    rw [hsplit, ← hhdr, List.drop_left]
  have hmapM : (data.take num_tasks).mapM sel_line_of_output =
      some ((data.take num_tasks).map (fun line =>
        (py_split_ws line).map (fun tok => (((py_int_of_token tok).getD 0 : ℕ) : ℤ) - 1))) := by
    rw [mapM_option_eq_some sel_line_of_output [] _
      (fun line hl => by rw [sel_line_of_output_eq line (htok line hl)]; rfl)]
    congr 1
    apply List.map_congr_left
    intro line hl
    rw [sel_line_of_output_eq line (htok line hl)]
    rfl
  have hlenL : ((data.take num_tasks).map (fun line =>
      (py_split_ws line).map (fun tok => (((py_int_of_token tok).getD 0 : ℕ) : ℤ) - 1))).length
      = num_tasks := by
    rw [List.length_map, List.length_take]
    omega
  have hne : ((data.take num_tasks).map (fun line =>
      (py_split_ws line).map (fun tok => (((py_int_of_token tok).getD 0 : ℕ) : ℤ) - 1))) ≠ [] := by
    intro hcon
    rw [hcon] at hlenL
    simp at hlenL
    omega
  simp only [solver_stdout_sel_list, hpout, hmapM]
  rw [if_neg hne]

/-- C5: for every solver standard output of `h` header lines followed by at
least `num_tasks` whitespace-separated lines of well-formed 1-based indices,
the adapter skips exactly `h` lines — `h = 2` for `run_sfan` (single task),
`h = 3` for `run_msfan_nocorr` and `run_msfan` — then parses exactly
`num_tasks` lines, subtracting 1 from every index. -/
theorem solver_output_parsing (num_tasks : ℕ) (solver_stdout : String)
    (hdr data : List (List Char))
    (hnt : 0 < num_tasks)
    (hsplit : py_split_lines solver_stdout.data = hdr ++ data)
    (hlen : num_tasks ≤ data.length)
    (htok : ∀ line ∈ data.take num_tasks, ∀ tok ∈ py_split_ws line,
      (py_int_of_token tok).isSome) :
    (hdr.length = 2 →
      run_sfan num_tasks solver_stdout =
        .ok ((data.take num_tasks).map (fun line =>
          (py_split_ws line).map (fun tok => (((py_int_of_token tok).getD 0 : ℕ) : ℤ) - 1)))) ∧
    (hdr.length = 3 →
      run_msfan_nocorr num_tasks solver_stdout =
        .ok ((data.take num_tasks).map (fun line =>
          (py_split_ws line).map (fun tok => (((py_int_of_token tok).getD 0 : ℕ) : ℤ) - 1))) ∧
      run_msfan num_tasks solver_stdout =
        .ok ((data.take num_tasks).map (fun line =>
          (py_split_ws line).map (fun tok => (((py_int_of_token tok).getD 0 : ℕ) : ℤ) - 1)))) :=
  ⟨fun h2 => solver_stdout_sel_list_ok 2 num_tasks solver_stdout hdr data hnt hsplit h2 hlen htok,
    fun h3 =>
      ⟨solver_stdout_sel_list_ok 3 num_tasks solver_stdout hdr data hnt hsplit h3 hlen htok,
        solver_stdout_sel_list_ok 3 num_tasks solver_stdout hdr data hnt hsplit h3 hlen htok⟩⟩

theorem solver_output_parsing_witness :
    0 < 2 ∧
    py_split_lines ("h1\nh2\nh3\n1 3 5\n2 4" : String).data =
      [("h1" : String).data, ("h2" : String).data, ("h3" : String).data] ++
        [("1 3 5" : String).data, ("2 4" : String).data] ∧
    2 ≤ ([("1 3 5" : String).data, ("2 4" : String).data]).length ∧
    (∀ line ∈ ([("1 3 5" : String).data, ("2 4" : String).data]).take 2,
      ∀ tok ∈ py_split_ws line, (py_int_of_token tok).isSome) ∧
    ([("h1" : String).data, ("h2" : String).data, ("h3" : String).data]).length = 3 ∧
    run_msfan_nocorr 2 "h1\nh2\nh3\n1 3 5\n2 4" = .ok [[0, 2, 4], [1, 3]] ∧
    run_msfan 2 "h1\nh2\nh3\n1 3 5\n2 4" = .ok [[0, 2, 4], [1, 3]] ∧
    run_sfan 2 "h1\nh2\n1 3 5\n2 4" = .ok [[0, 2, 4], [1, 3]] := by
  have hmap : (([("1 3 5" : String).data, ("2 4" : String).data]).take 2).map (fun line =>
      (py_split_ws line).map (fun tok => (((py_int_of_token tok).getD 0 : ℕ) : ℤ) - 1)) =
      [[0, 2, 4], [1, 3]] := by decide
  have h3 := (solver_output_parsing 2 "h1\nh2\nh3\n1 3 5\n2 4"
      [("h1" : String).data, ("h2" : String).data, ("h3" : String).data]
      [("1 3 5" : String).data, ("2 4" : String).data]
      (by norm_num) (by decide) (by decide) (by decide)).2 (by decide)
  rw [hmap] at h3
  have h2 := (solver_output_parsing 2 "h1\nh2\n1 3 5\n2 4"
      [("h1" : String).data, ("h2" : String).data]
      [("1 3 5" : String).data, ("2 4" : String).data]
      (by norm_num) (by decide) (by decide) (by decide)).1 (by decide)
  rw [hmap] at h2
  exact ⟨by norm_num, by decide, by decide, by decide, by decide, h3.1, h3.2, h2⟩

/-- `mapM` over `Except` succeeds with the pointwise values when every element
succeeds. -/
theorem mapM_except_ok {α β γ : Type} (f : α → Except γ β) (g : α → β) (l : List α)
    (h : ∀ a ∈ l, f a = .ok (g a)) : l.mapM f = .ok (l.map g) := by
  induction l with
  | nil => rfl
  | cons a t ih =>
    rw [List.mapM_cons, h a (List.mem_cons_self a t),
      ih (fun x hx => h x (List.mem_cons_of_mem a hx))]
    rfl

/-- C8: for every task with a nonempty causal set, the scorer returns
PPV `= |selected ∩ causal| / |selected|` (with the NaN signal when `selected`
is empty) and TPR `= |selected ∩ causal| / |causal|`; an empty causal set
fails with `InvalidGroundTruth`. -/
theorem compute_ppv_sensitivity_formulas :
    (∀ (causal_list selected_list : List (Finset ℕ)),
      (∀ cs ∈ causal_list.zip selected_list, cs.1 ≠ ∅) →
      compute_ppv_sensitivity causal_list selected_list =
        .ok ((causal_list.zip selected_list).map (fun cs =>
            if cs.2 = ∅ then PPVValue.nan
            else .val (((cs.2 ∩ cs.1).card : ℚ) / (cs.2.card : ℚ))),
          (causal_list.zip selected_list).map (fun cs =>
            ((cs.2 ∩ cs.1).card : ℚ) / (cs.1.card : ℚ)))) ∧
    (∀ selected : Finset ℕ, ppv_tpr_task ∅ selected = .error .invalidGroundTruth) := by
  constructor
  · intro causal_list selected_list hne
    rw [compute_ppv_sensitivity,
      mapM_except_ok (fun cs => ppv_tpr_task cs.1 cs.2)
        (fun cs =>
          (if cs.2 = ∅ then PPVValue.nan
            else .val (((cs.2 ∩ cs.1).card : ℚ) / (cs.2.card : ℚ)),
            ((cs.2 ∩ cs.1).card : ℚ) / (cs.1.card : ℚ)))
        (causal_list.zip selected_list)
        (fun cs hcs => by simp only [ppv_tpr_task]; rw [if_neg (hne cs hcs)])]
    simp [Except.map, List.map_map]
  · intro selected
    rw [ppv_tpr_task, if_pos rfl]

theorem compute_ppv_sensitivity_formulas_witness :
    (∀ cs ∈ ([({1, 2, 3} : Finset ℕ)].zip [({2, 3, 4} : Finset ℕ)]), cs.1 ≠ ∅) ∧
    compute_ppv_sensitivity [{1, 2, 3}] [{2, 3, 4}] =
      .ok ([PPVValue.val (2 / 3)], [2 / 3]) := by
  have hne : ∀ cs ∈ ([({1, 2, 3} : Finset ℕ)].zip [({2, 3, 4} : Finset ℕ)]), cs.1 ≠ ∅ := by
    decide
  have h := compute_ppv_sensitivity_formulas.1 [{1, 2, 3}] [{2, 3, 4}] hne
  have hc1 : (({2, 3, 4} : Finset ℕ) ∩ {1, 2, 3}).card = 2 := by decide
  have hc2 : ({2, 3, 4} : Finset ℕ).card = 3 := by decide
  have hc3 : ({1, 2, 3} : Finset ℕ).card = 3 := by decide
  have hns : ¬ (({2, 3, 4} : Finset ℕ) = ∅) := by decide
  simp only [List.zip_cons_cons, List.zip_nil_right, List.map_cons, List.map_nil] at h
  rw [if_neg hns, hc1, hc2, hc3] at h
  norm_num at h
  exact ⟨hne, h⟩
